import Mathlib

/-!
Shallow embedding of the submission-execution core of the tuis-oj online
judge (Go sources under `api/core` and `api/cmd/worker`), together with
theorems settling the frozen claims about its specification.

Conventions:
* Go strings are Lean `String`s; the string helpers work rune-wise on
  `String.data`, exactly as the `strings` functions the judge calls do.
* Go `int`/`int32`/`int64` are modelled as `Int`; no arithmetic in the
  modelled paths comes near the width bounds, so wrap-around is not
  modelled.
* Fallible Go calls become `Option`/`Except`; external collaborators
  (database, Redis, sandbox HTTP) are passed in as explicit environment
  values so the control flow of the Go functions can be reproduced
  faithfully.
-/

namespace TuisOJ

/-! ## Go string helpers

Models of the `strings`/`strconv` standard-library functions the judge
core calls.  Whitespace handling follows `unicode.IsSpace` as the
library does; case conversion is modelled on the ASCII range, which is
all the callers exercise (language tags and checker names). -/

/-- ASCII lowercase conversion of one character (models `unicode.ToLower`
on the ASCII range, which is all the callers use). -/
def goLowerChar (c : Char) : Char :=
  if 'A' ≤ c ∧ c ≤ 'Z' then Char.ofNat (c.toNat + 32) else c

/-- Models `strings.ToLower` on ASCII strings. -/
def goToLower (s : String) : String := ⟨s.data.map goLowerChar⟩

/-- The whitespace predicate used by `strings.Fields` and
`strings.TrimSpace`: `unicode.IsSpace`, i.e. the Unicode White_Space
code points (U+0009..U+000D, space, NEL, NBSP, OGHAM space, the
U+2000..U+200A spaces, LS, PS, NNBSP, MMSP and IDEOGRAPHIC space).
`strings.Fields` uses an ASCII fast path that agrees with this
predicate on ASCII input. -/
def goIsSpace (c : Char) : Bool :=
  c = ' ' || c = '\t' || c = '\n' || c = '\x0b' || c = '\x0c' || c = '\r' ||
  c = '\x85' || c = '\xa0' || c = '\u1680' ||
  ('\u2000' ≤ c && c ≤ '\u200a') ||
  c = '\u2028' || c = '\u2029' || c = '\u202f' || c = '\u205f' || c = '\u3000'

/-- Models `strings.TrimSpace`. -/
def goTrimSpace (s : String) : String :=
  ⟨((s.data.dropWhile goIsSpace).reverse.dropWhile goIsSpace).reverse⟩

/-- Drop the longest suffix of `l` whose characters all satisfy `p`. -/
def dropTrailing (p : Char → Bool) (l : List Char) : List Char :=
  (l.reverse.dropWhile p).reverse

/-- Models `strings.TrimRight s cutset`: remove trailing characters that
are members of `cutset`. -/
def goTrimRight (s : String) (cutset : List Char) : String :=
  ⟨dropTrailing (· ∈ cutset) s.data⟩

/-- Accumulator-style splitter behind `goFields`. -/
def goFieldsAux : List Char → List Char → List (List Char)
  | [], acc => if acc.isEmpty then [] else [acc.reverse]
  | c :: rest, acc =>
    if goIsSpace c then
      if acc.isEmpty then goFieldsAux rest []
      else acc.reverse :: goFieldsAux rest []
    else goFieldsAux rest (c :: acc)

/-- Models `strings.Fields`: the maximal runs of non-whitespace
characters, in order. -/
def goFields (s : String) : List String :=
  (goFieldsAux s.data []).map (fun l => ⟨l⟩)

/-- Decimal digit test ('0'..'9'). -/
def isDigitChar (c : Char) : Bool := '0' ≤ c && c ≤ '9'

/-- Numeric value of a digit list, most significant first. -/
def digitsToNat (l : List Char) : ℕ :=
  l.foldl (fun acc c => 10 * acc + (c.toNat - 48)) 0

/-- Models `strconv.ParseInt(s, 10, 64)`: optional sign, at least one
decimal digit, and the value must fit in a signed 64-bit integer. -/
def parseGoInt (s : String) : Option Int :=
  let (neg, l) : Bool × List Char :=
    match s.data with
    | '+' :: rest => (false, rest)
    | '-' :: rest => (true, rest)
    | l => (false, l)
  if l.isEmpty then none
  else if l.all isDigitChar then
    let v : Int := if neg then -(digitsToNat l : Int) else (digitsToNat l : Int)
    if -(2 ^ 63) ≤ v ∧ v ≤ 2 ^ 63 - 1 then some v else none
  else none

/-! ## Go float64 values and `strconv.ParseFloat`

The `eps` checker calls `strconv.ParseFloat(tok, 64)` and compares
`math.Abs(x-y) > eps`.  A parsed value is modelled as NaN, a signed
infinity, or a finite binary64 value carried by its exact rational
value (every finite double is an integer times a power of two, so this
representation is lossless; comparisons between doubles are exact
comparisons of those rationals).  Parsing models `strconv.ParseFloat`
for 64-bit: special words, decimal and hexadecimal (`0x…p…`) literals
with underscore digit separators, correctly rounded to binary64 with
round-to-nearest, ties-to-even; a literal that overflows to infinity is
`ErrRange` in Go, a non-nil error, hence `none` here (values that
underflow to zero round to zero without an error, as in Go's `atof64`).
The Go code never inspects the sign of a zero, so `-0` and `0` are
identified.  `eps` itself is a `float64` column in Go; the model takes
an arbitrary rational, which agrees with Go on every representable
value because the final comparison does not round. -/

/-- A Go `float64` value as far as the checker observes it. -/
inductive GoFloat where
  | nan : GoFloat
  | inf : Bool → GoFloat
  | finite : ℚ → GoFloat
deriving DecidableEq

/-- Floor of the base-2 logarithm of a positive rational: with
`d = log2 num - log2 den` the value lies in `(2^(d-1), 2^(d+1))`, so
the floor is `d - 1` or `d`. -/
def ratFloorLog2 (q : ℚ) : Int :=
  let d : Int := (Nat.log2 q.num.natAbs : Int) - (Nat.log2 q.den : Int)
  if q < (2 : ℚ) ^ d then d - 1 else d

/-- Round a rational to the nearest integer, ties to even. -/
def roundHalfEven (x : ℚ) : Int :=
  let f := x.floor
  let r := x - (f : ℚ)
  if r < 1 / 2 then f
  else if 1 / 2 < r then f + 1
  else if f % 2 = 0 then f else f + 1

/-- Round a positive rational to binary64: clamp the exponent at the
subnormal regime (-1022), round the 53-bit significand to nearest-even,
and overflow to infinity at `2^1024` (the even rounding candidate above
the largest finite double). -/
def roundF64Pos (s : ℚ) : GoFloat :=
  let e : Int := max (ratFloorLog2 s) (-1022)
  if 1024 ≤ e then .inf false
  else
    let m := roundHalfEven (s * (2 : ℚ) ^ (52 - e))
    let v : ℚ := (m : ℚ) * (2 : ℚ) ^ (e - 52)
    if (2 : ℚ) ^ (1024 : Int) ≤ v then .inf false else .finite v

/-- Round a rational to binary64 with round-to-nearest, ties-to-even;
values that round past the largest finite double become infinities. -/
def roundF64 (q : ℚ) : GoFloat :=
  if q = 0 then .finite 0
  else if 0 < q then roundF64Pos q
  else
    match roundF64Pos (-q) with
    | .inf _ => .inf true
    | .finite v => .finite (-v)
    | .nan => .nan

/-- Case-insensitive match against `inf` / `infinity`
(`strconv`'s `special`). -/
def isInfWord (l : List Char) : Bool :=
  l.map goLowerChar = ['i', 'n', 'f'] ||
    l.map goLowerChar = ['i', 'n', 'f', 'i', 'n', 'i', 't', 'y']

/-- The special values recognised by `strconv.ParseFloat`: optionally
signed `inf`/`infinity`, and unsigned `nan` (a signed `nan` is a syntax
error in Go, because `special` only falls through to the infinity case
after a sign). -/
def parseSpecial (l : List Char) : Option GoFloat :=
  match l with
  | '+' :: rest => if isInfWord rest then some (.inf false) else none
  | '-' :: rest => if isInfWord rest then some (.inf true) else none
  | _ =>
    if isInfWord l then some (.inf false)
    else if l.map goLowerChar = ['n', 'a', 'n'] then some .nan
    else none

/-- Strip one optional leading sign; returns (isNegative, rest). -/
def stripSign : List Char → Bool × List Char
  | '+' :: rest => (false, rest)
  | '-' :: rest => (true, rest)
  | l => (false, l)

/-- Parse the decimal mantissa `ddd`, `ddd.ddd`, `.ddd` or `ddd.`
(at least one digit overall); returns the value and the rest. -/
def parseMantissa (l : List Char) : Option (ℚ × List Char) :=
  let ip := l.takeWhile isDigitChar
  let r1 := l.dropWhile isDigitChar
  match r1 with
  | '.' :: rest =>
    let fp := rest.takeWhile isDigitChar
    let r2 := rest.dropWhile isDigitChar
    if ip.isEmpty && fp.isEmpty then none
    else some ((digitsToNat ip : ℚ) + (digitsToNat fp : ℚ) / (10 : ℚ) ^ fp.length, r2)
  | _ => if ip.isEmpty then none else some ((digitsToNat ip : ℚ), r1)

/-- Parse the exponent digits after `e`/`E`/`p`/`P` (optional sign, at
least one decimal digit, nothing after). -/
def parseExpDigits (l : List Char) : Option Int :=
  let (neg, l1) := stripSign l
  if l1.isEmpty then none
  else if l1.all isDigitChar then
    some (if neg then -(digitsToNat l1 : Int) else (digitsToNat l1 : Int))
  else none

/-- Hexadecimal digit test (`0`..`9`, `a`..`f`, case-insensitive). -/
def isGoHexDigit (c : Char) : Bool :=
  isDigitChar c || ('a' ≤ goLowerChar c && goLowerChar c ≤ 'f')

/-- Numeric value of a hexadecimal digit. -/
def hexDigitVal (c : Char) : ℕ :=
  if isDigitChar c then c.toNat - 48 else (goLowerChar c).toNat - 87

/-- Numeric value of a hexadecimal digit list, most significant
first. -/
def hexDigitsToNat (l : List Char) : ℕ :=
  l.foldl (fun acc c => 16 * acc + hexDigitVal c) 0

/-- Parse the hexadecimal mantissa after the `0x` prefix: `hhh`,
`hhh.hhh`, `.hhh` or `hhh.` (at least one digit overall); returns the
value and the rest. -/
def parseHexMantissa (l : List Char) : Option (ℚ × List Char) :=
  let ip := l.takeWhile isGoHexDigit
  let r1 := l.dropWhile isGoHexDigit
  match r1 with
  | '.' :: rest =>
    let fp := rest.takeWhile isGoHexDigit
    let r2 := rest.dropWhile isGoHexDigit
    if ip.isEmpty && fp.isEmpty then none
    else some ((hexDigitsToNat ip : ℚ) + (hexDigitsToNat fp : ℚ) / (16 : ℚ) ^ fp.length, r2)
  | _ => if ip.isEmpty then none else some ((hexDigitsToNat ip : ℚ), r1)

/-- The scanner state machine of `strconv`'s `underscoreOK`: `saw` is
`^` at the start, `0` after a digit (or base prefix), `_` after an
underscore and `!` after anything else; an underscore must follow and
be followed by a digit. -/
def underscoreLoop (hex : Bool) : List Char → Char → Bool
  | [], saw => saw ≠ '_'
  | c :: rest, saw =>
    if isDigitChar c || (hex && isGoHexDigit c) then underscoreLoop hex rest '0'
    else if c = '_' then
      if saw = '0' then underscoreLoop hex rest '_' else false
    else if saw = '_' then false
    else underscoreLoop hex rest '!'

/-- Models `strconv`'s `underscoreOK`: underscores may appear only
between digits or between a base prefix and a digit. -/
def underscoreOK (l : List Char) : Bool :=
  let l1 := (stripSign l).2
  match l1 with
  | '0' :: c :: rest =>
    if goLowerChar c = 'b' || goLowerChar c = 'o' || goLowerChar c = 'x' then
      underscoreLoop (goLowerChar c = 'x') rest '0'
    else underscoreLoop false l1 '^'
  | _ => underscoreLoop false l1 '^'

/-- Apply the sign and round the exact literal value to binary64;
overflow to infinity is `ErrRange` in Go, i.e. a non-nil error, hence
`none`. -/
def finishRounded (neg : Bool) (q : ℚ) : Option GoFloat :=
  match roundF64 (if neg then -q else q) with
  | .inf _ => none
  | f => some f

/-- The decimal branch of `ParseFloat` (sign already stripped):
mantissa, optional `e`/`E` exponent, full consumption, rounding. -/
def parseGoDecCore (neg : Bool) (l1 : List Char) : Option GoFloat :=
  match parseMantissa l1 with
  | none => none
  | some (m, r) =>
    match r with
    | [] => finishRounded neg m
    | 'e' :: rest => (parseExpDigits rest).bind (fun e => finishRounded neg (m * (10 : ℚ) ^ e))
    | 'E' :: rest => (parseExpDigits rest).bind (fun e => finishRounded neg (m * (10 : ℚ) ^ e))
    | _ => none

/-- The numeric branch of `ParseFloat` on an underscore-free token:
a `0x`/`0X` prefix selects the hexadecimal mantissa with its mandatory
binary `p` exponent, anything else is decimal. -/
def parseGoFloatCore (l : List Char) : Option GoFloat :=
  let (neg, l1) := stripSign l
  match l1 with
  | '0' :: c :: rest =>
    if goLowerChar c = 'x' then
      match parseHexMantissa rest with
      | none => none
      | some (m, r) =>
        match r with
        | 'p' :: rest2 => (parseExpDigits rest2).bind (fun e => finishRounded neg (m * (2 : ℚ) ^ e))
        | 'P' :: rest2 => (parseExpDigits rest2).bind (fun e => finishRounded neg (m * (2 : ℚ) ^ e))
        | _ => none
    else parseGoDecCore neg l1
  | _ => parseGoDecCore neg l1

/-- Models `strconv.ParseFloat(s, 64)`: the special words, then the
numeric grammar with underscore validation (`readFloat` skips
underscores while scanning and checks `underscoreOK` on the consumed
token, which for a fully-consumed valid token is equivalent to
validating and stripping them).  `none` models a non-nil error, from
either a syntax error or the `ErrRange` overflow. -/
def parseGoFloat (s : String) : Option GoFloat :=
  let l := s.data
  if l.isEmpty then none
  else
    match parseSpecial l with
    | some f => some f
    | none =>
      if l.contains '_' then
        if underscoreOK l then parseGoFloatCore (l.filter (fun c => c ≠ '_'))
        else none
      else parseGoFloatCore l

/-- IEEE-754 subtraction on the observed values (`x - y` in Go): the
exact difference of two finite doubles rounded to binary64, which may
overflow to an infinity. -/
def gfSub : GoFloat → GoFloat → GoFloat
  | .nan, _ => .nan
  | _, .nan => .nan
  | .inf a, .inf b => if a = b then .nan else .inf a
  | .inf a, .finite _ => .inf a
  | .finite _, .inf b => .inf (!b)
  | .finite x, .finite y => roundF64 (x - y)

/-- Models `math.Abs`. -/
def gfAbs : GoFloat → GoFloat
  | .nan => .nan
  | .inf _ => .inf false
  | .finite q => .finite |q|

/-- Models the Go comparison `x > eps` on float64: any comparison with
NaN is false. -/
def gfGT : GoFloat → ℚ → Bool
  | .nan, _ => false
  | .inf neg, _ => !neg
  | .finite q, e => decide (e < q)

/-! ## The output checker (`outputsEqualWithChecker`) -/

/-- The token-pair loop of the `eps` branch: every pair must parse on
both sides and must not satisfy `math.Abs(x-y) > eps`. -/
def epsPairsOK (eps : ℚ) : List (String × String) → Bool
  | [] => true
  | (a, b) :: rest =>
    match parseGoFloat a, parseGoFloat b with
    | some x, some y =>
      if gfGT (gfAbs (gfSub x y)) eps then false else epsPairsOK eps rest
    | _, _ => false

/-- The cutset `"\r\n "` used by the exact checker. -/
def trailCutset : List Char := ['\r', '\n', ' ']

/-- Models `outputsEqualWithChecker(actual, expected, checkerType, eps)`
from the worker processor: the `eps` branch tokenises both sides and
compares pairwise as floats, every other checker type byte-compares
after `strings.TrimRight(s, "\r\n ")` on both sides. -/
def outputsEqualWithChecker (actual expected checkerType : String) (eps : ℚ) : Bool :=
  if goToLower (goTrimSpace checkerType) = "eps" then
    let aa := goFields actual
    let bb := goFields expected
    if aa.length ≠ bb.length then false
    else epsPairsOK eps (aa.zip bb)
  else goTrimRight actual trailCutset = goTrimRight expected trailCutset

/-! ## Sandbox responses and the verdict mapping -/

/-- A go-judge `/run` response as decoded by the worker
(`judgeResponse` in `judge_client.go`).  `time` is nanoseconds,
`memory` is bytes; `files` and `fileIds` are Go maps modelled as
association lists. -/
structure JudgeResponse where
  status : String
  time : Int
  memory : Int
  exitStatus : Int
  error : String
  files : List (String × String)
  fileIds : List (String × String)
deriving DecidableEq

/-- Go map read `m[k]` with the comma-ok form: `none` when absent. -/
def goMapGet (m : List (String × String)) (k : String) : Option String :=
  (m.find? (fun p => p.1 = k)).map (fun p => p.2)

/-- Go map read `m[k]` without the ok flag: zero value `""` when
absent. -/
def goMapGetD (m : List (String × String)) (k : String) : String :=
  (goMapGet m k).getD ""

/-- Models `mapVerdict` in the worker processor (a `nil` response maps
to `RE`). -/
def mapVerdict : Option JudgeResponse → String
  | none => "RE"
  | some r =>
    if r.status = "Accepted" then
      if r.exitStatus = 0 then "AC" else "RE"
    else if r.status = "Time Limit Exceeded" then "TLE"
    else if r.status = "Memory Limit Exceeded" then "MLE"
    else if r.status = "Output Limit Exceeded" then "OLE"
    else if r.status = "Runtime Error" then "RE"
    else "RE"

/-! ## The worker processor (`WorkerProcessor.Process`)

External effects are supplied through `ProcEnv`; persistence is
observable as the list of `SaveResult` calls the run makes.  File writes
(`writeFileContent`) are modelled as always succeeding and returning the
file name (the Go code ignores their errors and only threads the path
into the result row). -/

/-- A submission row (`Submission` in `submission_repository.go`,
restricted to the fields the processor reads). -/
structure Submission where
  id : Int
  userId : Int
  problemId : Int
  language : String
  sourcePath : String
  status : String
deriving DecidableEq

/-- Problem metadata as returned by `ProblemRepository.FindDetail`,
restricted to the fields the processor reads. -/
structure ProblemDetail where
  timeLimitMS : Int
  memoryLimitKB : Int
  checkerType : String
  checkerEps : ℚ
deriving DecidableEq

/-- One test case row as returned by `ProblemRepository.ListTestcases`. -/
structure DbTestCase where
  inputText : String
  outputText : String
deriving DecidableEq

/-- The processor's private `testCase` value. -/
structure ProcTestCase where
  name : String
  stdin : String
  expected : String
deriving DecidableEq

/-- One per-testcase detail row (`SubmissionJudgeDetail`). -/
structure SubmissionJudgeDetail where
  testcase : String
  status : String
  timeMS : Option Int
  memoryKB : Option Int
deriving DecidableEq

/-- The result row handed to `SaveResult` (`SubmissionResult`). -/
structure SubmissionResult where
  submissionId : Int
  verdict : String
  timeMS : Option Int
  memoryKB : Option Int
  stdoutPath : Option String
  stderrPath : Option String
  exitCode : Option Int
  errorMessage : Option String
  details : List SubmissionJudgeDetail
deriving DecidableEq

/-- Errors `Process` can return to the worker loop.  The worker only
distinguishes `ErrSubmissionNotPending` from everything else; the tag on
`sysOther` records which step failed. -/
inductive ProcError where
  | notPending : ProcError
  | sysOther : String → ProcError
deriving DecidableEq

/-- Models `stringPtrIfNotEmpty`: `nil` when the string is blank after
`strings.TrimSpace`. -/
def stringPtrIfNotEmpty (s : String) : Option String :=
  if goTrimSpace s = "" then none else some s

/-- Outcome of one `RunWithArtifact` call as seen by the processor:
the response pointer and the error.  (The HTTP client never returns
both a response and an error, but the processor is written defensively,
so both components are kept.) -/
structure RunOutcome where
  res : Option JudgeResponse
  err : Option String
deriving DecidableEq

/-- The external world of one `Process` call. -/
structure ProcEnv where
  /-- Result of `subRepo.AcquirePending`. -/
  acquire : Except ProcError Submission
  /-- Result of `os.ReadFile(sub.SourcePath)`; `none` models an error. -/
  source : Option String
  /-- Result of `problemRepo.FindDetail`; `none` models an error
  (the code falls back to defaults in that case). -/
  findDetail : Option ProblemDetail
  /-- Result of `judge.Compile`: `none` models a transport error
  (in which case the client returns a nil response), otherwise the
  response together with the artifact id. -/
  compile : Option (JudgeResponse × String)
  /-- Result of `problemRepo.ListTestcases`; `none` models an error. -/
  listTestcases : Option (List DbTestCase)
  /-- Outcome of `judge.RunWithArtifact` for the i-th test case. -/
  runs : ℕ → RunOutcome

/-- Mutable state of the per-testcase loop in `Process`. -/
structure LoopState where
  finalVerdict : String
  finalStatus : String
  runStdoutPath : String
  runStderrPath : String
  finalTimeMS : Option Int
  finalMemKB : Option Int
  finalExit : Option Int
  finalErrMsg : Option String
  details : List SubmissionJudgeDetail
deriving DecidableEq

/-- Initial loop state (`finalVerdict := "AC"`, `finalStatus :=
"succeeded"`, everything else empty). -/
def initLoopState : LoopState :=
  ⟨"AC", "succeeded", "", "", none, none, none, none, []⟩

/-- Detail tracking and max aggregation for one test case (lines
219-238 of the Go loop): a detail row is built from the response, and
the running maxima are bumped whenever the sandbox reported a positive
time/memory.  Go's `int64` division truncates toward zero, hence
`Int.tdiv`. -/
def recordDetail (st : LoopState) (name verdict : String)
    (res : Option JudgeResponse) : LoopState :=
  match res with
  | none => { st with details := st.details ++ [⟨name, verdict, none, none⟩] }
  | some r =>
    let t? : Option Int := if 0 < r.time then some (r.time.tdiv 1000000) else none
    let m? : Option Int := if 0 < r.memory then some (r.memory.tdiv 1024) else none
    let newTime := match t?, st.finalTimeMS with
      | none, cur => cur
      | some t, none => some t
      | some t, some cur => if cur < t then some t else some cur
    let newMem := match m?, st.finalMemKB with
      | none, cur => cur
      | some m, none => some m
      | some m, some cur => if cur < m then some m else some cur
    { st with
      finalTimeMS := newTime
      finalMemKB := newMem
      details := st.details ++ [⟨name, verdict, t?, m?⟩] }

/-- First-failing-case capture (lines 241-260 of the Go loop): snapshot
stdout/stderr to files next to the source, record a non-zero exit code
and a non-empty sandbox error message.  (The trailing `runErr` branch in
the Go code is unreachable because a run error has already returned.) -/
def captureFirstFail (st : LoopState) (res : Option JudgeResponse) : LoopState :=
  match res with
  | none => st
  | some r =>
    { st with
      runStdoutPath :=
        if (goMapGet r.files "stdout").isSome then "run_stdout.txt" else st.runStdoutPath
      runStderrPath :=
        if (goMapGet r.files "stderr").isSome then "run_stderr.txt" else st.runStderrPath
      finalExit := if r.exitStatus ≠ 0 then some r.exitStatus else st.finalExit
      finalErrMsg := if r.error ≠ "" then some r.error else st.finalErrMsg }

/-- The per-testcase loop of `Process` (`for _, tc := range testCases`),
indexed so the i-th case consumes `runs i`. -/
def runCases (runs : ℕ → RunOutcome) (checkerType : String) (eps : ℚ) :
    List ProcTestCase → ℕ → LoopState → Except ProcError LoopState
  | [], _, st => .ok st
  | tc :: rest, i, st =>
    let ro := runs i
    let verdict0 := mapVerdict ro.res
    let verdict :=
      if verdict0 = "AC" then
        let actualOut := match ro.res with
          | none => ""
          | some r => goMapGetD r.files "stdout"
        if outputsEqualWithChecker actualOut tc.expected checkerType eps then "AC" else "WA"
      else verdict0
    match ro.err with
    | some e => .error (.sysOther e)
    | none =>
      let st1 := recordDetail st tc.name verdict ro.res
      let st2 :=
        if verdict ≠ "AC" ∧ st1.finalVerdict = "AC" then captureFirstFail st1 ro.res
        else st1
      if verdict ≠ "AC" then
        .ok { st2 with finalVerdict := verdict, finalStatus := "failed" }
      else runCases runs checkerType eps rest (i + 1) st2

/-- Models `WorkerProcessor.loadTestCases`: inline DB contents only,
numbered from 1; an empty list is an error. -/
def loadTestCases (dbCases : Option (List DbTestCase)) :
    Except ProcError (List ProcTestCase) :=
  match dbCases with
  | none => .error (.sysOther "list testcases")
  | some l =>
    if l.isEmpty then .error (.sysOther "no testcases defined for problem")
    else .ok ((l.enumFrom 1).map (fun p => ⟨toString p.1, p.2.inputText, p.2.outputText⟩))

deriving instance DecidableEq for Except

/-- Everything a `Process` call does that the rest of the system can
see: the returned value and the sequence of `SaveResult` calls (result
row plus final status). -/
structure ProcOutcome where
  ret : Except ProcError String
  saved : List (SubmissionResult × String)
deriving DecidableEq

/-- The problem limits/checker resolution of `Process` (defaults 2000 ms
/ 256 MB / `exact` / eps 0, overridden by a found problem detail; the
memory limit is KB rounded up to MB, floored at 1). -/
def resolveLimits (detail : Option ProblemDetail) : Int × Int × String × ℚ :=
  match detail with
  | none => (2000, 256, "exact", 0)
  | some d =>
    let t := if 0 < d.timeLimitMS then d.timeLimitMS else 2000
    let m :=
      if 0 < d.memoryLimitKB then
        let mb := (d.memoryLimitKB + 1023).tdiv 1024
        if mb = 0 then 1 else mb
      else 256
    let (ct, ce) :=
      if goTrimSpace d.checkerType ≠ "" then
        (goToLower (goTrimSpace d.checkerType), d.checkerEps)
      else ("exact", 0)
    (t, m, ct, ce)

/-- Models `WorkerProcessor.Process`: parse the job id, acquire the
row, read the source, resolve limits, compile (persisting `CE` on a
compile failure), load the test cases, run them in order and persist
the aggregate result. -/
def Process (env : ProcEnv) (jobID : String) : ProcOutcome :=
  match parseGoInt jobID with
  | none => ⟨.error (.sysOther "parse job id"), []⟩
  | some _id =>
    match env.acquire with
    | .error e => ⟨.error e, []⟩
    | .ok sub =>
      match env.source with
      | none => ⟨.error (.sysOther "read source"), []⟩
      | some _src =>
        let limits := resolveLimits env.findDetail
        let checkerType := limits.2.2.1
        let checkerEps := limits.2.2.2
        match env.compile with
        | none => ⟨.error (.sysOther "compile transport"), []⟩
        | some (compileRes, _artifactID) =>
          if compileRes.status ≠ "Accepted" ∨ compileRes.exitStatus ≠ 0 then
            let result : SubmissionResult :=
              { submissionId := sub.id
                verdict := "CE"
                timeMS :=
                  if 0 < compileRes.time then some (compileRes.time.tdiv 1000000) else none
                memoryKB :=
                  if 0 < compileRes.memory then some (compileRes.memory.tdiv 1024) else none
                stdoutPath :=
                  stringPtrIfNotEmpty
                    (if (goMapGet compileRes.files "stdout").isSome then "compile_stdout.txt" else "")
                stderrPath :=
                  stringPtrIfNotEmpty
                    (if (goMapGet compileRes.files "stderr").isSome then "compile_stderr.txt" else "")
                exitCode := none
                errorMessage := if compileRes.error ≠ "" then some compileRes.error else none
                details := [] }
            ⟨.ok "CE", [(result, "failed")]⟩
          else
            match loadTestCases env.listTestcases with
            | .error e => ⟨.error e, []⟩
            | .ok testCases =>
              match runCases env.runs checkerType checkerEps testCases 0 initLoopState with
              | .error e => ⟨.error e, []⟩
              | .ok st =>
                let result : SubmissionResult :=
                  { submissionId := sub.id
                    verdict := st.finalVerdict
                    timeMS := st.finalTimeMS
                    memoryKB := st.finalMemKB
                    stdoutPath := stringPtrIfNotEmpty st.runStdoutPath
                    stderrPath := stringPtrIfNotEmpty st.runStderrPath
                    exitCode := st.finalExit
                    errorMessage := st.finalErrMsg
                    details := st.details }
                ⟨.ok st.finalVerdict, [(result, st.finalStatus)]⟩

/-! ## The queue broker (`RedisQueue`)

The Redis pending list is modelled with its LPUSH side at the list
head, so `Enqueue`'s `LPUSH` is `cons` and `Reserve`'s `RPOP` takes the
last element.  The processing sorted set is an association list
member ↦ score with ZSET update semantics. -/

/-- The two Redis keys as one state: the pending list and the
processing sorted set. -/
structure QueueState where
  pending : List String
  inflight : List (String × Int)
deriving DecidableEq

/-- ZADD: update the score when the member exists, else add it. -/
def zadd (s : List (String × Int)) (score : Int) (v : String) : List (String × Int) :=
  if s.any (fun p => p.1 = v) then
    s.map (fun p => if p.1 = v then (v, score) else p)
  else s ++ [(v, score)]

/-- ZSET iteration order: by score, ties by member. -/
def zOrder (a b : String × Int) : Prop :=
  a.2 < b.2 ∨ (a.2 = b.2 ∧ ¬ b.1 < a.1)

instance : DecidableRel zOrder := fun a b => by
  unfold zOrder; infer_instance

/-- ZRANGEBYSCORE key -inf mx: the members with score ≤ mx in ZSET
order. -/
def zrangeUpTo (s : List (String × Int)) (mx : Int) : List String :=
  ((s.filter (fun p => p.2 ≤ mx)).insertionSort zOrder).map (fun p => p.1)

/-- Models `RedisQueue.Enqueue` (`LPUSH pendingKey value`). -/
def qEnqueue (st : QueueState) (v : String) : QueueState :=
  { st with pending := v :: st.pending }

/-- Models `RedisQueue.Reserve`: the `RPOP` + `ZADD` script; returns the
reserved value (or `none` when the pending list is empty) and the new
state.  The score is `now + visibility` in milliseconds. -/
def qReserve (st : QueueState) (nowMs visibilityMs : Int) :
    Option String × QueueState :=
  match st.pending.getLast? with
  | none => (none, st)
  | some v =>
    (some v,
     { pending := st.pending.dropLast
       inflight := zadd st.inflight (nowMs + visibilityMs) v })

/-- Models `RedisQueue.Ack` (`ZREM processingKey value`). -/
def qAck (st : QueueState) (v : String) : QueueState :=
  { st with inflight := st.inflight.filter (fun p => p.1 ≠ v) }

/-- Models `RedisQueue.RequeueExpired`: the
`ZRANGEBYSCORE`/`ZREM`/`LPUSH` script.  `LPUSH key v₁ … vₙ` pushes the
values one by one, so the resulting list starts with `vₙ, …, v₁`. -/
def qRequeueExpired (st : QueueState) (nowMs : Int) :
    List String × QueueState :=
  let vals := zrangeUpTo st.inflight nowMs
  if vals.length > 0 then
    (vals,
     { pending := vals.reverse ++ st.pending
       inflight := st.inflight.filter (fun p => ¬ p.2 ≤ nowMs) })
  else (vals, st)

/-! ## The submission store (`PgSubmissionRepository.AcquirePending`)
and the worker retry dispatch (`cmd/worker/main.go`) -/

/-- Errors of `AcquirePending`: the row-scan error when the row does
not exist, and the distinguished `ErrSubmissionNotPending`. -/
inductive AcqError where
  | notFound : AcqError
  | notPending : AcqError
deriving DecidableEq

/-- Models `AcquirePending` as a transaction on the (optional)
submission row: lock and read the row, fail with `notPending` unless
its status is `pending`, otherwise set it to `running` and return it.
The pair is (call result, row state after the transaction). -/
def acquirePending : Option Submission → Except AcqError Submission × Option Submission
  | none => (.error .notFound, none)
  | some row =>
    if row.status = "pending" then
      (.ok { row with status := "running" }, some { row with status := "running" })
    else (.error .notPending, some row)

/-- The externally visible actions of the worker loop after
`processor.Process` returns, in order. -/
inductive WAction where
  | ack : WAction
  | incRetry : WAction
  | markStatus : String → WAction
  | enqueue : WAction
  | saveResult : String → String → WAction
deriving DecidableEq

/-- Models the error branch of the worker loop (`main.go` lines
123-161) for a job whose id parses: `NotPending` is acked and dropped;
any other error increments the retry counter (`retryCountBefore + 1`)
and either re-queues (count ≤ 3) or persists the `SE` poison-pill
verdict; either way the original delivery is acked at the end of the
iteration. -/
def workerHandleError (e : ProcError) (retryCountBefore : ℕ) : List WAction :=
  if e = .notPending then [.ack]
  else
    let newRetry := retryCountBefore + 1
    if newRetry ≤ 3 then [.incRetry, .markStatus "pending", .enqueue, .ack]
    else [.incRetry, .saveResult "SE" "failed", .ack]

/-! ## Heartbeat state (`HeartbeatState` in `heartbeat_state.go`)

The `running` map is modelled as an insertion-ordered list of keys
(Go map iteration order is unspecified; none of the claims depend on
the order of `runningJobs`). -/

/-- The heartbeat fields the state machine touches. -/
structure HBState where
  status : String
  runningCount : ℕ
  runningJobs : List String
  currentJob : String
  processedTotal : ℕ
  failedTotal : ℕ
  lastError : String
  running : List String
deriving DecidableEq

/-- Models `updateRunningFieldsLocked`. -/
def hbUpdateRunningFields (s : HBState) : HBState :=
  let jobs := s.running.take 3
  { s with
    runningCount := s.running.length
    runningJobs := jobs
    currentJob := if s.running.length = 0 then "" else jobs.headD "" }

/-- Models `NewHeartbeatState`: status `starting`, no running jobs. -/
def hbInit : HBState :=
  ⟨"starting", 0, [], "", 0, 0, "", []⟩

/-- Models `JobStarted`: status becomes `busy`, the job is added to the
running map. -/
def hbJobStarted (s : HBState) (job : String) : HBState :=
  let running := if job ∈ s.running then s.running else s.running ++ [job]
  hbUpdateRunningFields { s with status := "busy", running := running }

/-- Models `JobFinished`: remove the job, bump the counters, and set
the status from the emptiness of the running map. -/
def hbJobFinished (s : HBState) (job : String) (err : Option String) : HBState :=
  let running := s.running.erase job
  hbUpdateRunningFields
    { s with
      running := running
      processedTotal := s.processedTotal + 1
      failedTotal := s.failedTotal + (if err.isSome then 1 else 0)
      lastError := match err with | some m => m | none => s.lastError
      status := if running.isEmpty then "idle" else "busy" }

/-- A job lifecycle event observed by the heartbeat aggregator. -/
inductive HBEvent where
  | started : String → HBEvent
  | finished : String → Option String → HBEvent
deriving DecidableEq

/-- One event step. -/
def hbStep (s : HBState) : HBEvent → HBState
  | .started job => hbJobStarted s job
  | .finished job err => hbJobFinished s job err

/-- The heartbeat state after a sequence of job events since boot.
Each periodic flush writes this state verbatim (plus timestamps and
runtime stats, which are not modelled). -/
def hbRun (evs : List HBEvent) : HBState :=
  evs.foldl hbStep hbInit

/-! ## The sandbox client language catalog (`judge_client.go`) -/

/-- One entry of `judgeLangConfigs`. -/
structure JudgeLangConfig where
  sourceName : String
  compileArgs : List String
  compileCopyOutCache : List String
  artifactKey : String
  runArgs : List String
deriving DecidableEq

/-- The `"c"` entry of `judgeLangConfigs`. -/
def cLangConfig : JudgeLangConfig :=
  { sourceName := "main.c"
    compileArgs := ["/usr/bin/gcc", "main.c", "-std=gnu17", "-O2", "-pipe", "-static", "-s", "-o", "main"]
    compileCopyOutCache := ["main"]
    artifactKey := "main"
    runArgs := ["./main"] }

/-- The `judgeLangConfigs` map. -/
def judgeLangConfigs (k : String) : Option JudgeLangConfig :=
  if k = "c" then some cLangConfig
  else if k = "cpp" then
    some
      { sourceName := "main.cpp"
        compileArgs := ["/usr/bin/g++", "main.cpp", "-std=gnu++17", "-O2", "-pipe", "-s", "-o", "main"]
        compileCopyOutCache := ["main"]
        artifactKey := "main"
        runArgs := ["./main"] }
  else if k = "python" then
    some
      { sourceName := "main.py"
        compileArgs := ["/usr/bin/python3", "-m", "py_compile", "main.py"]
        compileCopyOutCache := ["main.py"]
        artifactKey := "main.py"
        runArgs := ["/usr/bin/python3", "main.py"] }
  else if k = "java" then
    some
      { sourceName := "Main.java"
        compileArgs := ["/bin/sh", "-c", "javac Main.java && jar cfe Main.jar Main *.class"]
        compileCopyOutCache := ["Main.jar"]
        artifactKey := "Main.jar"
        runArgs := ["/usr/bin/java", "-jar", "Main.jar"] }
  else none

/-- Models `langConfigFor`: normalise the tag, look it up, and fall
back to the `"c"` entry when it is unknown. -/
def langConfigFor (key : String) : JudgeLangConfig :=
  match judgeLangConfigs (goToLower (goTrimSpace key)) with
  | some cfg => cfg
  | none => cLangConfig

/-- The sandbox command built by `HTTPJudgeClient.Compile` (the pure
request-construction part, before the HTTP call). -/
structure CompileCommand where
  args : List String
  env : List String
  cpuLimitNs : Int
  memoryLimitBytes : Int
  procLimit : Int
  copyInName : String
  copyInContent : String
  copyOutCached : List String
deriving DecidableEq

/-- Models the request `Compile` sends for a language tag: defaults for
non-positive limits, ms→ns and MB→bytes conversions, the language's
compile args, and the source copied in under the language's file
name. -/
def compileCommand (lang source : String) (timeLimitMs memoryLimitMb : Int) :
    CompileCommand :=
  let cfg := langConfigFor lang
  let t := if timeLimitMs ≤ 0 then 2000 else timeLimitMs
  let m := if memoryLimitMb ≤ 0 then 256 else memoryLimitMb
  { args := cfg.compileArgs
    env := ["PATH=/usr/bin:/bin"]
    cpuLimitNs := t * 1000000
    memoryLimitBytes := m * 1024 * 1024
    procLimit := 50
    copyInName := cfg.sourceName
    copyInContent := source
    copyOutCached := cfg.compileCopyOutCache }

/-- The sandbox command built by `HTTPJudgeClient.RunWithArtifact`
(the pure request-construction part). -/
structure RunCommand where
  args : List String
  env : List String
  cpuLimitNs : Int
  memoryLimitBytes : Int
  procLimit : Int
  copyInName : String
  copyInFileId : String
deriving DecidableEq

/-- Models the request `RunWithArtifact` sends: the language's run args
with the cached artifact copied in under its artifact key.  `none`
models the early error on an empty artifact id. -/
def runCommand (lang artifactID : String) (timeLimitMs memoryLimitMb : Int) :
    Option RunCommand :=
  if artifactID = "" then none
  else
    let cfg := langConfigFor lang
    let t := if timeLimitMs ≤ 0 then 2000 else timeLimitMs
    let m := if memoryLimitMb ≤ 0 then 256 else memoryLimitMb
    some
      { args := cfg.runArgs
        env := ["PATH=/usr/bin:/bin"]
        cpuLimitNs := t * 1000000
        memoryLimitBytes := m * 1024 * 1024
        procLimit := 50
        copyInName := cfg.artifactKey
        copyInFileId := artifactID }

/-! ## Specification-side definitions

These follow the spec's words, to be compared with the definitions
embedded from the source. -/

/-- The verdict table as the spec states it: `Accepted ∧ exit=0 → AC`;
`Accepted ∧ exit≠0 → RE`; `Time Limit Exceeded → TLE`; `Memory Limit
Exceeded → MLE`; `Output Limit Exceeded → OLE`; `Runtime Error → RE`;
anything else → `RE`. -/
def specVerdictMap (r : JudgeResponse) : String :=
  if r.status = "Accepted" ∧ r.exitStatus = 0 then "AC"
  else if r.status = "Accepted" then "RE"
  else if r.status = "Time Limit Exceeded" then "TLE"
  else if r.status = "Memory Limit Exceeded" then "MLE"
  else if r.status = "Output Limit Exceeded" then "OLE"
  else if r.status = "Runtime Error" then "RE"
  else "RE"

/-- When the Go expression `math.Abs(x-y) > eps` is false, i.e. when
the eps checker accepts a parsed token pair: finite values whose
IEEE-754 rounded difference is within `eps`, any pair whose difference
is NaN (a NaN on either side, or two like-signed infinities), and
nothing else — in particular a finite difference that overflows to an
infinity is a mismatch. -/
def pairEqUnderEps (x y : GoFloat) (eps : ℚ) : Prop :=
  match x, y with
  | .finite q, .finite r =>
    match roundF64 (q - r) with
    | .finite d => |d| ≤ eps
    | .inf _ => False
    | .nan => True
  | .nan, _ => True
  | _, .nan => True
  | .inf a, .inf b => a = b
  | .inf _, .finite _ => False
  | .finite _, .inf _ => False

/-- One step of the running-maximum aggregation: absorb an optional
reported value into the optional current maximum, keeping the current
value on ties as the Go code does. -/
def optMaxStep (acc v : Option Int) : Option Int :=
  match acc, v with
  | none, v => v
  | some a, none => some a
  | some a, some t => if a < t then some t else some a

/-- The maximum of the recorded per-case `time_ms` values (`none` when
no case recorded one), with the same tie behaviour as the Go loop. -/
def optMaxTime (details : List SubmissionJudgeDetail) : Option Int :=
  details.foldl (fun acc d => optMaxStep acc d.timeMS) none

/-- The maximum of the recorded per-case `memory_kb` values. -/
def optMaxMem (details : List SubmissionJudgeDetail) : Option Int :=
  details.foldl (fun acc d => optMaxStep acc d.memoryKB) none

/-! ## Concrete fixtures for counterexamples and witnesses -/

/-- A submission row as the processor sees it after a successful
acquire. -/
def subEx : Submission := ⟨1, 10, 20, "c", "/submissions/1/source", "running"⟩

/-- The same row before any worker touched it. -/
def subPendingEx : Submission := { subEx with status := "pending" }

/-- A failed compile response (non-zero exit). -/
def ceResEx : JudgeResponse :=
  ⟨"Nonzero Exit Status", 0, 0, 1, "", [("stderr", "boom")], []⟩

/-- A successful compile response carrying the cached artifact. -/
def okCompileEx : JudgeResponse :=
  ⟨"Accepted", 0, 0, 0, "", [], [("main", "fid")]⟩

/-- An accepted run: 100 ms, 2000 KB, stdout `ok`. -/
def runResACEx : JudgeResponse :=
  ⟨"Accepted", 100000000, 2048000, 0, "", [("stdout", "ok")], []⟩

/-- A wrong-answer run: 50 ms, 1000 KB, stdout `bad`. -/
def runResWAEx : JudgeResponse :=
  ⟨"Accepted", 50000000, 1024000, 0, "", [("stdout", "bad")], []⟩

/-- Environment for C2's counterexample: the compile fails and the
problem has an empty test set. -/
def envC2 : ProcEnv :=
  ⟨.ok subEx, some "int main", none, some (ceResEx, ""), some [], fun _ => ⟨none, none⟩⟩

/-- Environment for C2's amended theorem witness: the compile succeeds
and the problem has an empty test set. -/
def envC2ok : ProcEnv :=
  ⟨.ok subEx, some "int main ok", none, some (okCompileEx, "fid"), some [], fun _ => ⟨none, none⟩⟩

/-- Environment for C3: two test cases expecting `ok`; the first run
is accepted in 100 ms, the second prints `bad` in 50 ms. -/
def envC3 : ProcEnv :=
  ⟨.ok subEx, some "src", none, some (okCompileEx, "fid"),
   some [⟨"", "ok"⟩, ⟨"", "ok"⟩],
   fun i => if i = 0 then ⟨some runResACEx, none⟩ else ⟨some runResWAEx, none⟩⟩

/-- The result row `Process` persists for `envC3`. -/
def resC3 : SubmissionResult :=
  ⟨1, "WA", some 100, some 2000, some "run_stdout.txt", none, none, none,
   [⟨"1", "AC", some 100, some 2000⟩, ⟨"2", "WA", some 50, some 1000⟩]⟩

/-! ## Helper lemmas -/

/-- Re-enqueueing happens exactly while the incremented retry counter
is still within the budget of 3. -/
theorem enqueue_mem_workerHandleError (e : ProcError) (he : e ≠ .notPending) (i : ℕ) :
    WAction.enqueue ∈ workerHandleError e i ↔ i + 1 ≤ 3 := by
  unfold workerHandleError
  rw [if_neg he]
  by_cases h : i + 1 ≤ 3 <;> simp [h]

/-- Counting the indices below 3 in an initial segment of ℕ. -/
theorem filter_range_lt3 :
    ∀ k : ℕ, ((List.range k).filter (fun i => decide (i + 1 ≤ 3))).length = min k 3 := by
  intro k
  induction k with
  | zero => simp
  | succ n ih =>
    rw [List.range_succ, List.filter_append, List.length_append, ih]
    have hsing :
        (List.filter (fun i => decide (i + 1 ≤ 3)) [n]).length =
          if n + 1 ≤ 3 then 1 else 0 := by
      by_cases h : n + 1 ≤ 3
      · have hd : decide (n + 1 ≤ 3) = true := decide_eq_true h
        simp only [List.filter_singleton, hd, cond_true, if_pos h, List.length_singleton]
      · have hd : decide (n + 1 ≤ 3) = false := decide_eq_false h
        simp only [List.filter_singleton, hd, cond_false, if_neg h, List.length_nil]
    rw [hsing]
    rcases Nat.lt_or_ge n 3 with h | h
    · rw [if_pos (by omega), Nat.min_eq_left (by omega), Nat.min_eq_left (by omega)]
    · rw [if_neg (by omega), Nat.min_eq_right (by omega), Nat.min_eq_right (by omega)]

/-- Dropping a prefix whose characters all satisfy the predicate. -/
theorem dropWhile_append_of_all {p : Char → Bool} :
    ∀ (l₂ l : List Char), (∀ c ∈ l₂, p c = true) →
      (l₂ ++ l).dropWhile p = l.dropWhile p
  | [], _, _ => rfl
  | c :: cs, l, h => by
    rw [List.cons_append, List.dropWhile_cons, if_pos (h c (List.mem_cons_self c cs))]
    exact dropWhile_append_of_all cs l (fun x hx => h x (List.mem_cons_of_mem c hx))

/-- Appending trailing characters that satisfy the predicate does not
change the trailing-strip. -/
theorem dropTrailing_append_of_all (p : Char → Bool) (t ta : List Char)
    (h : ∀ c ∈ ta, p c = true) :
    dropTrailing p (t ++ ta) = dropTrailing p t := by
  unfold dropTrailing
  rw [List.reverse_append,
    dropWhile_append_of_all ta.reverse t.reverse
      (fun c hc => h c (List.mem_reverse.mp hc))]

/-- Every list is its trailing-strip followed by a suffix of characters
satisfying the predicate. -/
theorem dropTrailing_decomp (p : Char → Bool) (l : List Char) :
    ∃ ta, l = dropTrailing p l ++ ta ∧ ∀ c ∈ ta, p c = true := by
  refine ⟨(l.reverse.takeWhile p).reverse, ?_, ?_⟩
  · unfold dropTrailing
    rw [← List.reverse_append, List.takeWhile_append_dropWhile, List.reverse_reverse]
  · intro c hc
    exact List.mem_takeWhile_imp (List.mem_reverse.mp hc)

/-- When the Go comparison `math.Abs(x-y) > eps` is false. -/
theorem gfGT_abs_sub_eq_false_iff (x y : GoFloat) (eps : ℚ) :
    gfGT (gfAbs (gfSub x y)) eps = false ↔ pairEqUnderEps x y eps := by
  cases x with
  | nan => simp [gfSub, gfAbs, gfGT, pairEqUnderEps]
  | inf a =>
    cases y with
    | nan => simp [gfSub, gfAbs, gfGT, pairEqUnderEps]
    | inf b => cases a <;> cases b <;> simp [gfSub, gfAbs, gfGT, pairEqUnderEps]
    | finite r => simp [gfSub, gfAbs, gfGT, pairEqUnderEps]
  | finite q =>
    cases y with
    | nan => simp [gfSub, gfAbs, gfGT, pairEqUnderEps]
    | inf b => simp [gfSub, gfAbs, gfGT, pairEqUnderEps]
    | finite r =>
      show gfGT (gfAbs (roundF64 (q - r))) eps = false ↔ _
      cases hrd : roundF64 (q - r) with
      | nan => simp [gfAbs, gfGT, pairEqUnderEps, hrd]
      | inf s => simp [gfAbs, gfGT, pairEqUnderEps, hrd]
      | finite d => simp [gfAbs, gfGT, pairEqUnderEps, hrd, not_lt]

/-- The eps token loop accepts exactly when every pair parses on both
sides and is equal under eps. -/
theorem epsPairsOK_iff (eps : ℚ) :
    ∀ l : List (String × String),
      epsPairsOK eps l = true ↔
        ∀ p ∈ l, ∃ x y, parseGoFloat p.1 = some x ∧ parseGoFloat p.2 = some y ∧
          pairEqUnderEps x y eps
  | [] => by simp [epsPairsOK]
  | (a, b) :: rest => by
    rw [epsPairsOK]
    cases hx : parseGoFloat a with
    | none =>
      change false = true ↔ _
      constructor
      · intro hfalse
        exact absurd hfalse (by simp)
      · intro hall
        obtain ⟨x, y, hx', _, _⟩ := hall (a, b) (List.mem_cons_self _ _)
        rw [hx] at hx'
        exact Option.noConfusion hx'
    | some x =>
      cases hy : parseGoFloat b with
      | none =>
        change false = true ↔ _
        constructor
        · intro hfalse
          exact absurd hfalse (by simp)
        · intro hall
          obtain ⟨x', y, _, hy', _⟩ := hall (a, b) (List.mem_cons_self _ _)
          rw [hy] at hy'
          exact Option.noConfusion hy'
      | some y =>
        change (if gfGT (gfAbs (gfSub x y)) eps = true then false
          else epsPairsOK eps rest) = true ↔ _
        by_cases hgt : gfGT (gfAbs (gfSub x y)) eps = true
        · rw [if_pos hgt]
          constructor
          · intro hfalse
            exact absurd hfalse (by simp)
          · intro hall
            obtain ⟨x', y', hx', hy', hpe⟩ := hall (a, b) (List.mem_cons_self _ _)
            rw [hx] at hx'
            rw [hy] at hy'
            obtain rfl : x = x' := Option.some.inj hx'
            obtain rfl : y = y' := Option.some.inj hy'
            rw [(gfGT_abs_sub_eq_false_iff x y eps).mpr hpe] at hgt
            exact Bool.noConfusion hgt
        · have hgf : gfGT (gfAbs (gfSub x y)) eps = false :=
            Bool.eq_false_iff.mpr hgt
          rw [if_neg hgt, epsPairsOK_iff eps rest]
          constructor
          · intro hr p hp
            rcases List.mem_cons.mp hp with rfl | hp'
            · exact ⟨x, y, hx, hy, (gfGT_abs_sub_eq_false_iff x y eps).mp hgf⟩
            · exact hr p hp'
          · intro hall p hp
            exact hall p (List.mem_cons_of_mem _ hp)

/-! ## Theorems for the claims -/

/-- C5: the exact checker declares two strings equal iff they are
byte-identical after stripping only trailing carriage-return, newline
and space characters from both sides — equivalently, iff they share a
common body followed on each side only by characters of the cutset;
leading and interior whitespace stays significant. -/
theorem exact_checker_iff (a b : String) (eps : ℚ) :
    outputsEqualWithChecker a b "exact" eps = true ↔
      ∃ t ta tb : List Char,
        a.data = t ++ ta ∧ b.data = t ++ tb ∧
        (∀ c ∈ ta, c ∈ trailCutset) ∧ (∀ c ∈ tb, c ∈ trailCutset) := by
  unfold outputsEqualWithChecker
  rw [if_neg (by decide), decide_eq_true_eq]
  constructor
  · intro h
    have hd : dropTrailing (fun c => c ∈ trailCutset) a.data =
        dropTrailing (fun c => c ∈ trailCutset) b.data := congrArg String.data h
    obtain ⟨ta, hta, hpa⟩ := dropTrailing_decomp (fun c => c ∈ trailCutset) a.data
    obtain ⟨tb, htb, hpb⟩ := dropTrailing_decomp (fun c => c ∈ trailCutset) b.data
    refine ⟨dropTrailing (fun c => c ∈ trailCutset) a.data, ta, tb, hta, ?_, ?_, ?_⟩
    · rw [hd]
      exact htb
    · exact fun c hc => of_decide_eq_true (hpa c hc)
    · exact fun c hc => of_decide_eq_true (hpb c hc)
  · rintro ⟨t, ta, tb, ha, hb, hta, htb⟩
    unfold goTrimRight
    congr 1
    rw [ha, hb,
      dropTrailing_append_of_all _ t ta (fun c hc => decide_eq_true (hta c hc)),
      dropTrailing_append_of_all _ t tb (fun c hc => decide_eq_true (htb c hc))]

/-- C4 counterexample: `NaN` and `Inf` are accepted by Go's float
parsing and compare equal to themselves under the eps checker (because
`NaN > eps` is false), so a non-finite token pair does not yield a
mismatch as the claim states. -/
theorem eps_checker_accepts_nan :
    outputsEqualWithChecker "NaN" "NaN" "eps" 0 = true ∧
    parseGoFloat "NaN" = some GoFloat.nan ∧
    outputsEqualWithChecker "+Inf" "+Inf" "eps" 0 = true ∧
    parseGoFloat "+Inf" = some (GoFloat.inf false) := by decide

/-- C4 amended: the eps checker declares two outputs equal iff they
have the same number of whitespace-separated tokens and every token
pair parses under Go's `ParseFloat` — which accepts `NaN` and signed
infinity words — with `math.Abs(a−b) > eps` false: finite pairs within
eps, any pair involving NaN, and like-signed infinite pairs are equal;
unparsable tokens, mixed finite/infinite pairs and opposite infinities
mismatch. -/
theorem eps_checker_iff (a b : String) (eps : ℚ) :
    outputsEqualWithChecker a b "eps" eps = true ↔
      ((goFields a).length = (goFields b).length ∧
        ∀ p ∈ (goFields a).zip (goFields b),
          ∃ x y, parseGoFloat p.1 = some x ∧ parseGoFloat p.2 = some y ∧
            pairEqUnderEps x y eps) := by
  unfold outputsEqualWithChecker
  rw [if_pos (by decide)]
  by_cases hlen : (goFields a).length = (goFields b).length
  · rw [if_neg (by simp [hlen]), epsPairsOK_iff]
    simp [hlen]
  · rw [if_pos hlen]
    simp [hlen]

/-- C6: for every sandbox run response, the per-case verdict mapping is
total and exactly the table of the spec: Accepted with exit 0 → AC,
Accepted with non-zero exit → RE, TLE/MLE/OLE statuses to their
verdicts, Runtime Error → RE, anything else → RE. -/
theorem mapVerdict_matches_spec (r : JudgeResponse) :
    mapVerdict (some r) = specVerdictMap r := by
  unfold mapVerdict specVerdictMap
  by_cases h1 : r.status = "Accepted" <;> by_cases h2 : r.exitStatus = 0 <;>
    simp [h1, h2]

/-- C7: `AcquirePending` returns the distinguished `NotPending` error
exactly when the (existing) submission row's status is anything other
than `pending`, leaving the row unchanged in that case; the worker's
reaction to `NotPending` is exactly one `Ack` — no retry increment, no
persisted result. -/
theorem acquirePending_notPending_iff (row : Submission) (rc : ℕ) :
    ((acquirePending (some row)).1 = .error .notPending ↔ row.status ≠ "pending") ∧
    (row.status ≠ "pending" → (acquirePending (some row)).2 = some row) ∧
    workerHandleError .notPending rc = [.ack] := by
  unfold acquirePending workerHandleError
  by_cases h : row.status = "pending" <;> simp [h]

/-- Witness for C7 at a row already in status `running`. -/
theorem acquirePending_notPending_iff_witness :
    (acquirePending (some subEx)).1 = .error .notPending ∧
    (acquirePending (some subEx)).2 = some subEx ∧
    workerHandleError .notPending 0 = [.ack] :=
  ⟨(acquirePending_notPending_iff subEx 0).1.mpr (by decide),
   (acquirePending_notPending_iff subEx 0).2.1 (by decide),
   (acquirePending_notPending_iff subEx 0).2.2⟩

/-- C8: on a retryable processor error the worker increments the retry
counter; with the new count at most 3 it marks the row pending,
re-enqueues and acks, otherwise it persists the `SE`/`failed`
poison-pill result and acks; consequently a job is re-enqueued on at
most 3 of its failures. -/
theorem workerHandleError_retry_policy (e : ProcError) (rc : ℕ)
    (he : e ≠ .notPending) :
    (rc + 1 ≤ 3 →
      workerHandleError e rc = [.incRetry, .markStatus "pending", .enqueue, .ack]) ∧
    (3 < rc + 1 →
      workerHandleError e rc = [.incRetry, .saveResult "SE" "failed", .ack]) ∧
    (WAction.enqueue ∈ workerHandleError e rc ↔ rc + 1 ≤ 3) ∧
    ∀ k : ℕ,
      ((List.range k).filter
        (fun i => WAction.enqueue ∈ workerHandleError e i)).length ≤ 3 := by
  refine ⟨?_, ?_, enqueue_mem_workerHandleError e he rc, ?_⟩
  · intro h
    unfold workerHandleError
    rw [if_neg he, if_pos h]
  · intro h
    unfold workerHandleError
    rw [if_neg he, if_neg (by omega)]
  · intro k
    have hfix :
        (List.range k).filter (fun i => WAction.enqueue ∈ workerHandleError e i) =
          (List.range k).filter (fun i => decide (i + 1 ≤ 3)) := by
      apply List.filter_congr
      intro i _
      exact decide_eq_decide.mpr (enqueue_mem_workerHandleError e he i)
    rw [hfix, filter_range_lt3]
    omega

/-- Witness for C8 at a concrete retryable error and retry counts on
both sides of the budget. -/
theorem workerHandleError_retry_policy_witness :
    workerHandleError (.sysOther "boom") 0 =
      [.incRetry, .markStatus "pending", .enqueue, .ack] ∧
    workerHandleError (.sysOther "boom") 3 =
      [.incRetry, .saveResult "SE" "failed", .ack] :=
  ⟨(workerHandleError_retry_policy (.sysOther "boom") 0 (by decide)).1 (by decide),
   (workerHandleError_retry_policy (.sysOther "boom") 3 (by decide)).2.1 (by decide)⟩

/-- C10: every language tag that is not `c`, `cpp`, `python` or `java`
after trimming and lowercasing silently falls back to the C
configuration — `Compile` sends the gcc command for `main.c` and
`RunWithArtifact` sends `./main` — instead of rejecting the
submission. -/
theorem langConfigFor_unknown_falls_back_to_c (key src artifactID : String)
    (t m : Int) (h : goToLower (goTrimSpace key) ∉ ["c", "cpp", "python", "java"]) :
    langConfigFor key = cLangConfig ∧
    compileCommand key src t m = compileCommand "c" src t m ∧
    runCommand key artifactID t m = runCommand "c" artifactID t m ∧
    cLangConfig.sourceName = "main.c" ∧
    cLangConfig.compileArgs.head? = some "/usr/bin/gcc" ∧
    cLangConfig.runArgs = ["./main"] := by
  simp only [List.mem_cons, List.not_mem_nil, or_false, not_or] at h
  obtain ⟨h1, h2, h3, h4⟩ := h
  have hk : judgeLangConfigs (goToLower (goTrimSpace key)) = none := by
    unfold judgeLangConfigs
    rw [if_neg h1, if_neg h2, if_neg h3, if_neg h4]
  have hcfg : langConfigFor key = cLangConfig := by
    unfold langConfigFor
    rw [hk]
  have hc : langConfigFor "c" = cLangConfig := by rfl
  refine ⟨hcfg, ?_, ?_, rfl, rfl, rfl⟩
  · unfold compileCommand
    rw [hcfg, hc]
  · unfold runCommand
    rw [hcfg, hc]

/-- Witness for C10 at the unknown tag `ruby`. -/
theorem langConfigFor_unknown_falls_back_to_c_witness :
    langConfigFor " Ruby " = cLangConfig ∧
    compileCommand " Ruby " "puts 1" 2000 256 = compileCommand "c" "puts 1" 2000 256 ∧
    runCommand " Ruby " "fid" 2000 256 = runCommand "c" "fid" 2000 256 ∧
    cLangConfig.sourceName = "main.c" ∧
    cLangConfig.compileArgs.head? = some "/usr/bin/gcc" ∧
    cLangConfig.runArgs = ["./main"] :=
  langConfigFor_unknown_falls_back_to_c " Ruby " "puts 1" "fid" 2000 256 (by decide)

/-- C1 counterexample: pending holds `7`, the expired in-flight job is
`9`; after `RequeueExpired` the next `Reserve` returns `7`, the job
that was already pending, not the reclaimed `9` — so the reclaimed job
is NOT inserted at the end `Reserve` takes from. -/
theorem requeueExpired_not_at_reserve_head :
    (qRequeueExpired ⟨["7"], [("9", 5)]⟩ 10).1 = ["9"] ∧
    (qRequeueExpired ⟨["7"], [("9", 5)]⟩ 10).2.pending = ["9", "7"] ∧
    (qReserve (qRequeueExpired ⟨["7"], [("9", 5)]⟩ 10).2 100 30).1 = some "7" ∧
    (some "7" : Option String) ≠ some "9" := by decide

/-- C1 amended: `RequeueExpired` pushes the reclaimed jobs with `LPUSH`
— the same end `Enqueue` uses and the opposite end from `Reserve`'s
`RPOP` — so a subsequent `Reserve` still returns the oldest job that
was already pending, and the reclaimed jobs re-emerge only after every
job pending at reclaim time. -/
theorem requeueExpired_pushes_at_enqueue_end (st : QueueState) (nowMs t vis : Int)
    (h : st.pending ≠ []) :
    (qRequeueExpired st nowMs).2.pending =
      (qRequeueExpired st nowMs).1.reverse ++ st.pending ∧
    (qReserve (qRequeueExpired st nowMs).2 t vis).1 = (qReserve st t vis).1 := by
  unfold qRequeueExpired
  by_cases hl : (zrangeUpTo st.inflight nowMs).length > 0
  · rw [if_pos hl]
    refine ⟨rfl, ?_⟩
    unfold qReserve
    rw [List.getLast?_append_of_ne_nil _ h]
    obtain ⟨v, hv⟩ := Option.isSome_iff_exists.mp (List.getLast?_isSome.mpr h)
    rw [hv]
  · rw [if_neg hl]
    have : zrangeUpTo st.inflight nowMs = [] := by
      cases hz : zrangeUpTo st.inflight nowMs with
      | nil => rfl
      | cons a l => rw [hz] at hl; simp at hl
    rw [this]
    exact ⟨rfl, rfl⟩

/-- Witness for C1's amended theorem at the counterexample state. -/
theorem requeueExpired_pushes_at_enqueue_end_witness :
    (qRequeueExpired ⟨["7"], [("9", 5)]⟩ 10).2.pending =
      (qRequeueExpired ⟨["7"], [("9", 5)]⟩ 10).1.reverse ++ ["7"] ∧
    (qReserve (qRequeueExpired ⟨["7"], [("9", 5)]⟩ 10).2 100 30).1 =
      (qReserve ⟨["7"], [("9", 5)]⟩ 100 30).1 :=
  requeueExpired_pushes_at_enqueue_end ⟨["7"], [("9", 5)]⟩ 10 100 30 (by decide)

/-- C9 counterexample: with no job events since boot the heartbeat
state (written verbatim by every periodic flush) has running_count 0
but status `starting`, not `idle`. -/
theorem heartbeat_starting_with_zero_jobs :
    (hbRun []).runningCount = 0 ∧ (hbRun []).status = "starting" ∧
    ("starting" : String) ≠ "idle" := by decide

/-- Every step leaves the status consistent with the running count. -/
theorem hbStep_status (s : HBState) (e : HBEvent) :
    (hbStep s e).status = if 0 < (hbStep s e).runningCount then "busy" else "idle" := by
  cases e with
  | started job =>
    have hne : (if job ∈ s.running then s.running else s.running ++ [job]) ≠ [] := by
      by_cases h : job ∈ s.running
      · simp only [if_pos h]
        intro hnil
        rw [hnil] at h
        exact List.not_mem_nil job h
      · simp only [if_neg h]
        intro hnil
        have hlen := congrArg List.length hnil
        simp at hlen
    show "busy" =
      if 0 < (if job ∈ s.running then s.running else s.running ++ [job]).length
      then "busy" else "idle"
    rw [if_pos (List.length_pos.mpr hne)]
  | finished job err =>
    show (if (s.running.erase job).isEmpty then "idle" else "busy") =
      if 0 < (s.running.erase job).length then "busy" else "idle"
    by_cases h : (s.running.erase job).isEmpty
    · rw [if_pos h, if_neg (by rw [List.isEmpty_iff] at h; simp [h])]
    · rw [if_neg h,
        if_pos (List.length_pos.mpr (by simpa [List.isEmpty_iff] using h))]

/-- C9 amended: `starting` is reported until the first job event, not
only "at boot": once at least one job has started or finished, every
heartbeat reports `busy` exactly when running_count > 0 and `idle`
exactly when it is 0 — but a worker that has never received a job keeps
reporting `starting` with running_count 0. -/
theorem heartbeat_status_after_first_job (evs : List HBEvent) (h : evs ≠ []) :
    (hbRun evs).status =
      if 0 < (hbRun evs).runningCount then "busy" else "idle" := by
  rcases List.eq_nil_or_concat evs with rfl | ⟨l, e, rfl⟩
  · exact absurd rfl h
  · unfold hbRun
    rw [List.concat_eq_append, List.foldl_append, List.foldl_cons, List.foldl_nil]
    exact hbStep_status _ e

/-- Witness for C9's amended theorem after a single job start. -/
theorem heartbeat_status_after_first_job_witness :
    (hbRun [.started "1"]).status =
      if 0 < (hbRun [.started "1"]).runningCount then "busy" else "idle" :=
  heartbeat_status_after_first_job [.started "1"] (by decide)

/-- C2 counterexample: a submission whose problem has an empty test
set and whose compile fails gets a `CE` verdict persisted (with final
status `failed`) and no retryable error — the test cases are only
loaded after a successful compile, so the claim that no `CE` is ever
persisted for a problem with no test cases is false. -/
theorem process_persists_ce_with_empty_testcases :
    envC2.listTestcases = some [] ∧
    (Process envC2 "1").saved.map (fun p => p.1.verdict) = ["CE"] ∧
    (Process envC2 "1").saved.map (fun p => p.2) = ["failed"] ∧
    (Process envC2 "1").ret = .ok "CE" := by decide

/-- C2 amended: limits and checker are resolved before compiling (a
missing problem falls back to defaults instead of erroring), but test
cases are loaded only after a successful compile; when compilation
succeeds and the test set is empty, `Process` returns a retryable
system error and persists nothing. -/
theorem process_empty_testcases_after_compile (env : ProcEnv) (jobID : String)
    (idv : Int) (sub : Submission) (src : String) (res : JudgeResponse) (aid : String)
    (hparse : parseGoInt jobID = some idv)
    (hacq : env.acquire = .ok sub)
    (hsrc : env.source = some src)
    (hcompile : env.compile = some (res, aid))
    (hres : res.status = "Accepted") (hexit : res.exitStatus = 0)
    (htc : env.listTestcases = some []) :
    (Process env jobID).ret = .error (.sysOther "no testcases defined for problem") ∧
    (Process env jobID).saved = [] := by
  unfold Process
  rw [hparse, hacq, hsrc, hcompile]
  dsimp only
  rw [if_neg (by simp [hres, hexit])]
  rw [htc]
  exact ⟨rfl, rfl⟩

/-- Witness for C2's amended theorem at a concrete environment with a
successful compile and an empty test set. -/
theorem process_empty_testcases_after_compile_witness :
    (Process envC2ok "1").ret = .error (.sysOther "no testcases defined for problem") ∧
    (Process envC2ok "1").saved = [] :=
  process_empty_testcases_after_compile envC2ok "1" 1 subEx "int main ok"
    okCompileEx "fid" (by decide) rfl rfl rfl rfl rfl rfl

/-- Folding one more detail into the running time maximum. -/
theorem optMaxTime_append (l : List SubmissionJudgeDetail) (d : SubmissionJudgeDetail) :
    optMaxTime (l ++ [d]) = optMaxStep (optMaxTime l) d.timeMS := by
  unfold optMaxTime
  rw [List.foldl_append]
  rfl

/-- Folding one more detail into the running memory maximum. -/
theorem optMaxMem_append (l : List SubmissionJudgeDetail) (d : SubmissionJudgeDetail) :
    optMaxMem (l ++ [d]) = optMaxStep (optMaxMem l) d.memoryKB := by
  unfold optMaxMem
  rw [List.foldl_append]
  rfl

/-- The Go update order (`reported value` matched first) agrees with
`optMaxStep`. -/
theorem optMaxStep_swap (cur v : Option Int) :
    (match v, cur with
      | none, cur => cur
      | some t, none => some t
      | some t, some cur => if cur < t then some t else some cur) =
      optMaxStep cur v := by
  cases cur <;> cases v <;> rfl

/-- `recordDetail` keeps the aggregate maxima in sync with the detail
list, appends exactly one detail, and leaves the verdict fields
alone. -/
theorem recordDetail_invariants (st : LoopState) (name verdict : String)
    (res : Option JudgeResponse)
    (ht : st.finalTimeMS = optMaxTime st.details)
    (hm : st.finalMemKB = optMaxMem st.details) :
    (recordDetail st name verdict res).finalTimeMS =
      optMaxTime (recordDetail st name verdict res).details ∧
    (recordDetail st name verdict res).finalMemKB =
      optMaxMem (recordDetail st name verdict res).details ∧
    (recordDetail st name verdict res).details.length = st.details.length + 1 ∧
    (recordDetail st name verdict res).finalVerdict = st.finalVerdict ∧
    (recordDetail st name verdict res).finalStatus = st.finalStatus := by
  cases res with
  | none =>
    refine ⟨?_, ?_, by simp [recordDetail], rfl, rfl⟩
    · show st.finalTimeMS = optMaxTime (st.details ++ [⟨name, verdict, none, none⟩])
      rw [optMaxTime_append, ht]
      cases optMaxTime st.details <;> rfl
    · show st.finalMemKB = optMaxMem (st.details ++ [⟨name, verdict, none, none⟩])
      rw [optMaxMem_append, hm]
      cases optMaxMem st.details <;> rfl
  | some r =>
    refine ⟨?_, ?_, by simp [recordDetail], rfl, rfl⟩
    · show (match (if 0 < r.time then some (r.time.tdiv 1000000) else none),
          st.finalTimeMS with
        | none, cur => cur
        | some t, none => some t
        | some t, some cur => if cur < t then some t else some cur) =
        optMaxTime (st.details ++
          [⟨name, verdict, if 0 < r.time then some (r.time.tdiv 1000000) else none,
            if 0 < r.memory then some (r.memory.tdiv 1024) else none⟩])
      rw [optMaxTime_append, ht, optMaxStep_swap]
    · show (match (if 0 < r.memory then some (r.memory.tdiv 1024) else none),
          st.finalMemKB with
        | none, cur => cur
        | some m, none => some m
        | some m, some cur => if cur < m then some m else some cur) =
        optMaxMem (st.details ++
          [⟨name, verdict, if 0 < r.time then some (r.time.tdiv 1000000) else none,
            if 0 < r.memory then some (r.memory.tdiv 1024) else none⟩])
      rw [optMaxMem_append, hm, optMaxStep_swap]

/-- The first-fail capture only touches the snapshot paths, the exit
code and the error message. -/
theorem captureFirstFail_preserves (st : LoopState) (res : Option JudgeResponse) :
    (captureFirstFail st res).finalTimeMS = st.finalTimeMS ∧
    (captureFirstFail st res).finalMemKB = st.finalMemKB ∧
    (captureFirstFail st res).details = st.details ∧
    (captureFirstFail st res).finalVerdict = st.finalVerdict ∧
    (captureFirstFail st res).finalStatus = st.finalStatus := by
  cases res with
  | none => exact ⟨rfl, rfl, rfl, rfl, rfl⟩
  | some r => exact ⟨rfl, rfl, rfl, rfl, rfl⟩

/-- The per-testcase loop keeps the aggregate maxima equal to the
maxima over the recorded details. -/
theorem runCases_maxima (runs : ℕ → RunOutcome) (ct : String) (eps : ℚ) :
    ∀ (cs : List ProcTestCase) (i : ℕ) (st st' : LoopState),
      runCases runs ct eps cs i st = .ok st' →
      st.finalTimeMS = optMaxTime st.details →
      st.finalMemKB = optMaxMem st.details →
      st'.finalTimeMS = optMaxTime st'.details ∧
        st'.finalMemKB = optMaxMem st'.details
  | [], _, st, st', h, ht, hm => by
    rw [runCases] at h
    cases h
    exact ⟨ht, hm⟩
  | tc :: rest, i, st, st', h, ht, hm => by
    rw [runCases] at h
    set verdict :=
      (if mapVerdict (runs i).res = "AC" then
        if outputsEqualWithChecker
            (match (runs i).res with
              | none => ""
              | some r => goMapGetD r.files "stdout")
            tc.expected ct eps then "AC" else "WA"
      else mapVerdict (runs i).res) with hverdict
    cases he : (runs i).err with
    | some e =>
      rw [he] at h
      exact Except.noConfusion h
    | none =>
      rw [he] at h
      obtain ⟨h1, h2, _, _, _⟩ :=
        recordDetail_invariants st tc.name verdict (runs i).res ht hm
      by_cases hv : verdict ≠ "AC"
      · rw [if_pos hv] at h
        by_cases hcap : verdict ≠ "AC" ∧
            (recordDetail st tc.name verdict (runs i).res).finalVerdict = "AC"
        · rw [if_pos hcap] at h
          obtain ⟨c1, c2, c3, _, _⟩ :=
            captureFirstFail_preserves
              (recordDetail st tc.name verdict (runs i).res) (runs i).res
          cases h
          exact ⟨by rw [c1, c3, h1], by rw [c2, c3, h2]⟩
        · rw [if_neg hcap] at h
          cases h
          exact ⟨h1, h2⟩
      · rw [if_neg hv] at h
        by_cases hcap : verdict ≠ "AC" ∧
            (recordDetail st tc.name verdict (runs i).res).finalVerdict = "AC"
        · exact absurd hcap.1 (not_not_intro (not_not.mp (by simpa using hv)))
        · rw [if_neg hcap] at h
          exact runCases_maxima runs ct eps rest (i + 1) _ st' h h1 h2

/-- `recordDetail` appends one detail and does not touch the verdict
fields (no aggregation hypotheses needed). -/
theorem recordDetail_basic (st : LoopState) (name verdict : String)
    (res : Option JudgeResponse) :
    (recordDetail st name verdict res).details.length = st.details.length + 1 ∧
    (recordDetail st name verdict res).finalVerdict = st.finalVerdict := by
  cases res with
  | none => exact ⟨by simp [recordDetail], rfl⟩
  | some r => exact ⟨by simp [recordDetail], rfl⟩

/-- If the loop ends with verdict `AC` it processed every test case,
appending exactly one detail per case. -/
theorem runCases_ac_length (runs : ℕ → RunOutcome) (ct : String) (eps : ℚ) :
    ∀ (cs : List ProcTestCase) (i : ℕ) (st st' : LoopState),
      runCases runs ct eps cs i st = .ok st' →
      st'.finalVerdict = "AC" →
      st.finalVerdict = "AC" ∧ st'.details.length = st.details.length + cs.length
  | [], _, st, st', h, hac => by
    rw [runCases] at h
    cases h
    exact ⟨hac, rfl⟩
  | tc :: rest, i, st, st', h, hac => by
    rw [runCases] at h
    set verdict :=
      (if mapVerdict (runs i).res = "AC" then
        if outputsEqualWithChecker
            (match (runs i).res with
              | none => ""
              | some r => goMapGetD r.files "stdout")
            tc.expected ct eps then "AC" else "WA"
      else mapVerdict (runs i).res) with hverdict
    cases he : (runs i).err with
    | some e =>
      rw [he] at h
      exact Except.noConfusion h
    | none =>
      rw [he] at h
      by_cases hvd : verdict ≠ "AC"
      · rw [if_pos hvd] at h
        cases h
        exact absurd hac hvd
      · rw [if_neg hvd] at h
        rw [if_neg (fun hcap => hvd hcap.1)] at h
        obtain ⟨hfv2, hlen2⟩ :=
          runCases_ac_length runs ct eps rest (i + 1)
            (recordDetail st tc.name verdict (runs i).res) st' h hac
        obtain ⟨hb1, hb2⟩ := recordDetail_basic st tc.name verdict (runs i).res
        refine ⟨by rw [← hb2]; exact hfv2, ?_⟩
        rw [hlen2, hb1, List.length_cons]
        omega

/-- C3 counterexample: a run whose first case is `AC` in 100 ms / 2000
KB and whose second case is the first failure (`WA`) in 50 ms / 1000 KB
persists aggregate time 100 and memory 2000 — the maxima over executed
cases, not the values of the first non-AC case. -/
theorem process_nonac_aggregate_not_first_fail :
    (Process envC3 "1").saved = [(resC3, "failed")] ∧
    resC3.verdict = "WA" ∧
    resC3.details = [⟨"1", "AC", some 100, some 2000⟩, ⟨"2", "WA", some 50, some 1000⟩] ∧
    resC3.timeMS = some 100 ∧ (some 100 : Option Int) ≠ some 50 ∧
    resC3.memoryKB = some 2000 ∧ (some 2000 : Option Int) ≠ some 1000 := by decide

/-- C3 amended: for every persisted run result (non-`CE`), the
aggregate `time_ms` and `memory_kb` are the maxima of the per-case
recorded values over all executed cases — on a non-AC run these are
the cases up to and including the first failing one — and are `nil`
when no executed case reported a positive value; an `AC` run records
one detail per test case. -/
theorem process_aggregates_are_maxima (env : ProcEnv) (jobID : String)
    (r : SubmissionResult) (s : String)
    (hsav : (Process env jobID).saved = [(r, s)]) (hv : r.verdict ≠ "CE") :
    r.timeMS = optMaxTime r.details ∧ r.memoryKB = optMaxMem r.details ∧
    ∀ l, env.listTestcases = some l → r.verdict = "AC" →
      r.details.length = l.length := by
  unfold Process at hsav
  cases hp : parseGoInt jobID with
  | none =>
    rw [hp] at hsav
    exact List.noConfusion hsav
  | some idv =>
    rw [hp] at hsav
    cases ha : env.acquire with
    | error e =>
      rw [ha] at hsav
      exact List.noConfusion hsav
    | ok sub =>
      rw [ha] at hsav
      cases hs2 : env.source with
      | none =>
        rw [hs2] at hsav
        exact List.noConfusion hsav
      | some src =>
        rw [hs2] at hsav
        cases hc : env.compile with
        | none =>
          rw [hc] at hsav
          exact List.noConfusion hsav
        | some p =>
          rw [hc] at hsav
          obtain ⟨res, aid⟩ := p
          dsimp only at hsav
          by_cases hce : res.status ≠ "Accepted" ∨ res.exitStatus ≠ 0
          · rw [if_pos hce] at hsav
            injection hsav with hpair _
            injection hpair with hr _
            exact absurd (by rw [← hr]) hv
          · rw [if_neg hce] at hsav
            cases hlt : loadTestCases env.listTestcases with
            | error e =>
              rw [hlt] at hsav
              exact List.noConfusion hsav
            | ok tcs =>
              rw [hlt] at hsav
              dsimp only at hsav
              cases hrc : runCases env.runs (resolveLimits env.findDetail).2.2.1
                  (resolveLimits env.findDetail).2.2.2 tcs 0 initLoopState with
              | error e =>
                rw [hrc] at hsav
                exact List.noConfusion hsav
              | ok st =>
                rw [hrc] at hsav
                dsimp only at hsav
                injection hsav with hpair _
                injection hpair with hr _
                obtain ⟨m1, m2⟩ :=
                  runCases_maxima env.runs (resolveLimits env.findDetail).2.2.1
                    (resolveLimits env.findDetail).2.2.2 tcs 0 initLoopState st hrc
                    rfl rfl
                refine ⟨?_, ?_, ?_⟩
                · rw [← hr]
                  exact m1
                · rw [← hr]
                  exact m2
                · intro l hl hac
                  rw [hl] at hlt
                  cases l with
                  | nil =>
                    rw [loadTestCases] at hlt
                    exact Except.noConfusion hlt
                  | cons t0 trest =>
                    rw [loadTestCases] at hlt
                    rw [if_neg (by simp)] at hlt
                    injection hlt with htcs
                    rw [← hr] at hac
                    obtain ⟨-, hlen⟩ :=
                      runCases_ac_length env.runs (resolveLimits env.findDetail).2.2.1
                        (resolveLimits env.findDetail).2.2.2 tcs 0 initLoopState st hrc hac
                    rw [← hr]
                    show st.details.length = (t0 :: trest).length
                    rw [hlen, ← htcs]
                    simp [initLoopState]

/-- Witness for C3's amended theorem at the concrete two-case run. -/
theorem process_aggregates_are_maxima_witness :
    resC3.timeMS = optMaxTime resC3.details ∧
    resC3.memoryKB = optMaxMem resC3.details ∧
    ∀ l, envC3.listTestcases = some l → resC3.verdict = "AC" →
      resC3.details.length = l.length :=
  process_aggregates_are_maxima envC3 "1" resC3 "failed" (by decide) (by decide)

end TuisOJ
